import Mathlib

/-!
Shallow embedding of the recipe-gateway module (`src/api/recipe.js`):
a JSON value model, the HTML sanitizer, the SSRF validator and domain
allowlist, the sliding-window rate limiter, the bounded response cache,
JSON-LD block discovery, Recipe resolution, and field extraction.
The theorems at the end of the file settle the frozen claims about the
module.
-/

/-- JSON-like runtime values. `num` carries an `Int`: the module never does
numeric arithmetic, it only tests truthiness and strict equality against
string literals, so fractional numbers are not needed. `undef` models the
JavaScript `undefined` value (the result of reading an absent property),
which is distinct from JSON `null`. -/
inductive Json where
  | null : Json
  | undef : Json
  | bool : Bool → Json
  | num : Int → Json
  | str : String → Json
  | arr : List Json → Json
  | obj : List (String × Json) → Json

/-- JavaScript truthiness of a `Json` value: `null`/`undefined`, `false`,
`0` and the empty string are falsy, everything else (including empty arrays
and empty objects) is truthy. -/
def jtruthy : Json → Bool
  | Json.null => false
  | Json.undef => false
  | Json.bool b => b
  | Json.num n => n != 0
  | Json.str s => s != ""
  | Json.arr _ => true
  | Json.obj _ => true

/-- First binding of a field name in an object literal. -/
def olookup : List (String × Json) → String → Option Json
  | [], _ => none
  | (k, v) :: rest, f => if k = f then some v else olookup rest f

/-- Property read `j[f]` on a value that is not `null`/`undefined`:
objects yield the bound value or `undefined`; primitives and arrays yield
`undefined` (named properties of arrays never occur in parsed JSON). -/
def jgetTotal (j : Json) (f : String) : Json :=
  match j with
  | Json.obj fields =>
    match olookup fields f with
    | some v => v
    | none => Json.undef
  | _ => Json.undef

/-- Property read `j[f]` as executed by the handler: reading a property of
`null` or `undefined` throws a `TypeError`, modelled as `Except.error ()`
(the handler's catch-all turns it into a 500 response). -/
def jget (j : Json) (f : String) : Except Unit Json :=
  match j with
  | Json.null => Except.error ()
  | Json.undef => Except.error ()
  | _ => Except.ok (jgetTotal j f)

/-- JavaScript `a || b` on `Json` values. -/
def jor (a b : Json) : Json := if jtruthy a then a else b

/-- `Array.isArray`. -/
def isArrB : Json → Bool
  | Json.arr _ => true
  | _ => false

/-- Elements of an array value (`[]` for non-arrays; only read under an
`isArrB` guard). -/
def jelems : Json → List Json
  | Json.arr l => l
  | _ => []

/-- Strict equality test `x === 'Recipe'` used by the resolution loops. -/
def strEqRecipe : Json → Bool
  | Json.str s => s == "Recipe"
  | _ => false

/- ── HTML Sanitization (`sanitizeText`, lines 145-153) ──────────────
The four chained `String.replace` calls are modelled as four left-to-right
scanners over `List Char`.  Each scanner takes a matcher that, when a match
starts at the current position, returns the replacement text to emit and
the remaining input after the match; on no match the current character is
copied and scanning advances one character, exactly like a global regex
replace. -/

/-- Model of the regex class `\s` restricted to ASCII whitespace (the
inputs of this module are ASCII; the Unicode spaces additionally matched
by JavaScript `\s` are not modelled). -/
def isJsSpace (c : Char) : Bool :=
  c == ' ' || c == '\t' || c == '\n' || c == '\r' || c == '\x0b' || c == '\x0c'

/-- The regex class `\w`: ASCII letters, digits and underscore. -/
def isWordChar (c : Char) : Bool := c.isAlpha || c.isDigit || c == '_'

/-- The single-quote character, kept as a named constant. -/
def sqCh : Char := Char.ofNat 39

/-- Case-insensitive literal match: `pat` (given in lowercase) against the
head of `s`; returns the remainder on success. -/
def stripCI : List Char → List Char → Option (List Char)
  | [], s => some s
  | _ :: _, [] => none
  | p :: ps, c :: cs => if c.toLower == p then stripCI ps cs else none

/-- Generic global-replace scanner: at each position try the matcher; on a
match emit its replacement and resume after the consumed text, otherwise
copy one character.  Structural recursion on a fuel argument keeps the
definition kernel-reducible; the length guard makes one unit of fuel
always cover at least one consumed character, so fuel equal to the input
length (as supplied by `runReplace`) is never exhausted. -/
def runReplaceF (f : List Char → Option (List Char × List Char)) : Nat → List Char → List Char
  | 0, l => l
  | _, [] => []
  | fuel + 1, c :: cs =>
    match f (c :: cs) with
    | some (out, rem) =>
      if rem.length ≤ cs.length then out ++ runReplaceF f fuel rem
      else c :: runReplaceF f fuel cs
    | none => c :: runReplaceF f fuel cs

/-- One global replace over the whole input. -/
def runReplace (f : List Char → Option (List Char × List Char)) (l : List Char) : List Char :=
  runReplaceF f l.length l

/-- The denylisted tag names of the first replace. -/
def tagNames : List (List Char) :=
  ["script", "iframe", "object", "embed", "form", "link", "style", "base", "meta", "svg"].map String.data

/-- Try a list of lowercase literals at the head of `s` (regex alternation;
the alternatives share no prefixes).  Returns the matched length and the
remainder. -/
def findNameRem (pats : List (List Char)) (s : List Char) : Option (Nat × List Char) :=
  pats.foldr
    (fun p acc =>
      match stripCI p s with
      | some r => some (p.length, r)
      | none => acc)
    none

/-- Matcher for `/<\s*\/?\s*(script|iframe|object|embed|form|link|style|base|meta|svg)\b[^>]*>/gi`
(replaced by the empty string). -/
def tagTok (s : List Char) : Option (List Char × List Char) :=
  match s with
  | '<' :: rest =>
    let r1 := rest.dropWhile isJsSpace
    let r2 :=
      match r1 with
      | '/' :: t => t
      | _ => r1
    let r3 := r2.dropWhile isJsSpace
    match findNameRem tagNames r3 with
    | none => none
    | some (_, r4) =>
      match r4 with
      | [] => none
      | c :: _ =>
        if isWordChar c then none
        else
          match r4.dropWhile (fun ch => ch != '>') with
          | '>' :: r5 => some ([], r5)
          | _ => none
  | _ => none

/-- Consume through the closing quote `q`, if present. -/
def quotedRem (q : Char) (t : List Char) : Option (List Char) :=
  match t.dropWhile (fun ch => ch != q) with
  | _ :: r => some r
  | [] => none

/-- A bare attribute value: `[^\s>]*`. -/
def bareValueRem (t : List Char) : List Char :=
  t.dropWhile (fun ch => !isJsSpace ch && ch != '>')

/-- Matcher for `/\s+on\w+\s*=\s*(?:"[^"]*"|'[^']*'|[^\s>]*)/gi`
(replaced by the empty string). -/
def attrTok (s : List Char) : Option (List Char × List Char) :=
  match s with
  | [] => none
  | c :: _ =>
    if isJsSpace c then
      let r1 := s.dropWhile isJsSpace
      match stripCI ['o', 'n'] r1 with
      | none => none
      | some r2 =>
        let w := r2.takeWhile isWordChar
        if w.isEmpty then none
        else
          let r3 := (r2.drop w.length).dropWhile isJsSpace
          match r3 with
          | '=' :: r4 =>
            let r5 := r4.dropWhile isJsSpace
            match r5 with
            | q :: t =>
              if q == '"' || q == sqCh then
                match quotedRem q t with
                | some r6 => some ([], r6)
                | none => some ([], bareValueRem r5)
              else some ([], bareValueRem r5)
            | [] => some ([], [])
          | _ => none
    else none

/-- Attribute names of the third replace. -/
def urlAttrNames : List (List Char) :=
  ["href", "src", "action"].map String.data

/-- Scheme names of the third replace. -/
def schemeNames : List (List Char) :=
  ["javascript", "data", "vbscript"].map String.data

/-- Matcher for `/(href|src|action)\s*=\s*["']?\s*(javascript|data|vbscript)\s*:/gi`,
replaced by `$1="` (the attribute name is kept with its original casing). -/
def schemeTok (s : List Char) : Option (List Char × List Char) :=
  match findNameRem urlAttrNames s with
  | none => none
  | some (n, r1) =>
    let r2 := r1.dropWhile isJsSpace
    match r2 with
    | '=' :: r3 =>
      let r4 := r3.dropWhile isJsSpace
      let r5 :=
        match r4 with
        | q :: t => if q == '"' || q == sqCh then t else r4
        | [] => r4
      let r6 := r5.dropWhile isJsSpace
      match findNameRem schemeNames r6 with
      | none => none
      | some (_, r7) =>
        match r7.dropWhile isJsSpace with
        | ':' :: r8 => some (s.take n ++ ['=', '"'], r8)
        | _ => none
    | _ => none

/-- Find the nearest case-insensitive `</script>` and return the remainder
after it (lazy `[\s\S]*?<\/script>`). -/
def findCloseScript : List Char → Option (List Char)
  | [] => none
  | c :: cs =>
    match stripCI (("</script>").data) (c :: cs) with
    | some r => some r
    | none => findCloseScript cs

/-- Matcher for `/<script\b[^>]*>[\s\S]*?<\/script>/gi` (replaced by the
empty string). -/
def blockSweepTok (s : List Char) : Option (List Char × List Char) :=
  match stripCI (("<script").data) s with
  | none => none
  | some r1 =>
    match r1 with
    | [] => none
    | c :: _ =>
      if isWordChar c then none
      else
        match r1.dropWhile (fun ch => ch != '>') with
        | '>' :: r2 =>
          match findCloseScript r2 with
          | some r3 => some ([], r3)
          | none => none
        | _ => none

/-- `sanitizeText` (lines 145-153): the four replaces applied in source
order — denylisted tags, inline event handlers, dangerous URL schemes,
then the `<script>...</script>` block sweep.  The `typeof` guard of the
source lives in `jsanitize` below. -/
def sanitizeText (s : String) : String :=
  String.mk (runReplace blockSweepTok (runReplace schemeTok (runReplace attrTok (runReplace tagTok s.data))))

/-- `sanitizeText` as applied to an arbitrary runtime value: non-strings
are returned unchanged (`if (typeof str !== 'string') return str`). -/
def jsanitize : Json → Json
  | Json.str s => Json.str (sanitizeText s)
  | j => j

/-- The normalized recipe object built by the handler (lines 273-284). -/
structure RecipeOut where
  name : Json
  description : Json
  ingredients : List String
  instructions : List Json
  servings : Json
  prepTime : Json
  cookTime : Json
  image : Json

/-- `sanitizeRecipe` (lines 155-165).  `name` and `description` are
sanitized only when truthy; `instructions` and `ingredients` are always
arrays in the result object, so the `Array.isArray` guards always hold and
the element-wise map is applied unconditionally. -/
def sanitizeRecipe (r : RecipeOut) : RecipeOut :=
  { name := if jtruthy r.name then jsanitize r.name else r.name
    description := if jtruthy r.description then jsanitize r.description else r.description
    ingredients := r.ingredients.map sanitizeText
    instructions := r.instructions.map jsanitize
    servings := r.servings
    prepTime := r.prepTime
    cookTime := r.cookTime
    image := r.image }

/- ── URL parsing (platform primitive) ───────────────────────────────
The handler calls the WHATWG `new URL(...)` constructor; only `protocol`,
`username`, `password` and `hostname` are ever read. -/

/-- The components of a parsed URL that the module reads.  `protocol`
includes the trailing colon, as in the WHATWG API. -/
structure URLRec where
  protocol : String
  username : String
  password : String
  hostname : String
deriving DecidableEq

/-- Characters allowed in a scheme after the leading letter. -/
def schemeCharOk (c : Char) : Bool :=
  c.isAlpha || c.isDigit || c == '+' || c == '-' || c == '.'

/-- ASCII lowercasing of a string (model of `toLowerCase`; the inputs of
this module are ASCII). -/
def lowerStr (s : String) : String := String.mk (s.data.map Char.toLower)

/-- Decimal value of a digit run. -/
def digitsVal (l : List Char) : Nat := l.foldl (fun n c => n * 10 + (c.toNat - 48)) 0

/-- ASCII-whitespace trim of a string (model of `String.prototype.trim`;
the Unicode spaces additionally trimmed by JavaScript are not modelled). -/
def trimStr (s : String) : String :=
  String.mk (((s.data.dropWhile isJsSpace).reverse.dropWhile isJsSpace).reverse)

/-- Digits-only check for a port string; an empty port is allowed. -/
def portOk (p : List Char) : Bool :=
  p.all Char.isDigit && digitsVal p ≤ 65535

/-- Schemes the WHATWG standard treats as special (authority required). -/
def specialSchemes : List String :=
  ["http:", "https:", "ws:", "wss:", "ftp:", "file:"]

/-- Authority parsing: split userinfo at the last `@`, then host and an
optional port (bracketed IPv6 hosts keep their brackets, as in the WHATWG
`hostname` accessor). -/
def parseAuthority (proto : String) (auth : List Char) : Option URLRec :=
  let hpRev := auth.reverse.takeWhile (fun c => c != '@')
  let hostport := hpRev.reverse
  let userinfo := auth.take (auth.length - hostport.length - 1)
  let username := userinfo.takeWhile (fun c => c != ':')
  let password := userinfo.drop (username.length + 1)
  let hostAndPort : Option (List Char × List Char) :=
    match hostport with
    | '[' :: rest =>
      match rest.dropWhile (fun c => c != ']') with
      | ']' :: after => some ('[' :: rest.takeWhile (fun c => c != ']') ++ [']'], after)
      | _ => none
    | _ => some (hostport.takeWhile (fun c => c != ':'), hostport.drop (hostport.takeWhile (fun c => c != ':')).length)
  match hostAndPort with
  | none => none
  | some (host, after) =>
    let portPart : Option (List Char) :=
      match after with
      | [] => some []
      | ':' :: p => some p
      | _ => none
    match portPart with
    | none => none
    | some p =>
      if !portOk p then none
      else if host.isEmpty && proto ∈ specialSchemes then none
      else some { protocol := proto, username := String.mk username, password := String.mk password, hostname := String.mk host }

/-- Model of the WHATWG `new URL(...)` constructor (platform primitive),
restricted to the read components.  Not modelled (irrelevant to the
theorems below, which never rely on their absence): percent-decoding,
IDNA/punycode, IPv4 numeric-host canonicalization, and hostname case
normalization — every caller in the module lowercases the hostname itself
before using it. -/
def parseURL (s : String) : Option URLRec :=
  let cs := s.data
  let sch := cs.takeWhile (fun c => c != ':')
  match cs.drop sch.length with
  | ':' :: tail =>
    match sch with
    | [] => none
    | c0 :: crest =>
      if c0.isAlpha && crest.all schemeCharOk then
        let proto := String.mk ((c0 :: crest).map Char.toLower) ++ ":"
        match tail with
        | '/' :: '/' :: t2 =>
          parseAuthority proto (t2.takeWhile (fun c => c != '/' && c != '?' && c != '#'))
        | _ => if proto ∈ specialSchemes then none else some { protocol := proto, username := "", password := "", hostname := "" }
      else none
  | _ => none

/- ── Domain Allowlist (lines 57-96) ─────────────────────────────────── -/

/-- `ALLOWED_DOMAINS` (lines 58-85). -/
def ALLOWED_DOMAINS : List String :=
  ["recipetineats.com", "budgetbytes.com", "allrecipes.com", "foodnetwork.com",
   "simplyrecipes.com", "bonappetit.com", "seriouseats.com", "tasty.co",
   "delish.com", "epicurious.com", "cookieandkate.com", "minimalistbaker.com",
   "halfbakedharvest.com", "damndelicious.net", "pinchofyum.com",
   "smittenkitchen.com", "loveandlemons.com", "thepioneerwoman.com",
   "food52.com", "eatingwell.com", "skinnytaste.com", "hellofresh.com",
   "bbcgoodfood.com", "jamieoliver.com", "nigella.com", "themodernproper.com"]

/-- The hostname rewrite `hostname.toLowerCase().replace(/^www\./, '')`:
one leading `www.` is removed after lowercasing. -/
def stripWwwLower (h : String) : String :=
  let low := (lowerStr h).data
  if low.take 4 = ("www.").data then String.mk (low.drop 4) else String.mk low

/-- `isDomainAllowed` (lines 87-96). -/
def isDomainAllowed (urlString : String) : Bool :=
  match parseURL urlString with
  | none => false
  | some parsed => stripWwwLower parsed.hostname ∈ ALLOWED_DOMAINS

/- ── SSRF Protection (`isUrlSafe`, lines 99-142) ────────────────────── -/

/-- Split a character list at every `.` (model of `splitOn`). -/
def splitDots : List Char → List (List Char)
  | [] => [[]]
  | c :: cs =>
    let r := splitDots cs
    if c == '.' then [] :: r
    else
      match r with
      | h :: t => (c :: h) :: t
      | [] => [[c]]

/-- The dotted-quad regex `^(\d{1,3})\.(\d{1,3})\.(\d{1,3})\.(\d{1,3})$`
followed by `Number` conversion: four dot-separated runs of one to three
digits. -/
def ipv4Quad (h : String) : Option (Nat × Nat × Nat × Nat) :=
  match (splitDots h.data).map (fun p =>
      if 1 ≤ p.length && p.length ≤ 3 && p.all Char.isDigit then some (digitsVal p) else none) with
  | [some a, some b, some c, some d] => some (a, b, c, d)
  | _ => none

/-- The private/loopback/link-local range test of lines 125-134 (only the
first two octets are inspected, as in the source). -/
def privateIpQuad (h : String) : Bool :=
  match ipv4Quad h with
  | some (a, b, _, _) =>
    if a = 127 ∨ a = 10 ∨ (a = 172 ∧ 16 ≤ b ∧ b ≤ 31) ∨ (a = 192 ∧ b = 168) ∨ (a = 169 ∧ b = 254) ∨ a = 0
    then true else false
  | none => false

/-- `isUrlSafe` (lines 99-142). -/
def isUrlSafe (urlString : String) : Bool :=
  match parseURL urlString with
  | none => false
  | some parsed =>
    if parsed.protocol ≠ "https:" then false
    else if parsed.username ≠ "" ∨ parsed.password ≠ "" then false
    else
      let hostname := lowerStr parsed.hostname
      if hostname = "localhost" ∨ hostname = "0.0.0.0" ∨ hostname = "[::1]" then false
      else if privateIpQuad hostname then false
      else if hostname = "metadata.google.internal" ∨ hostname = "metadata.google.com" then false
      else true

/- ── Rate Limiting (lines 24-46) ──────────────────────────────────────
`rateLimitMap` is a `Map` from client ip to `{ timestamps }`; modelled as
an association list in insertion order.  Time is a `Nat` count of
milliseconds; `now - t` uses truncated subtraction, which agrees with the
JavaScript expression for monotone clock readings. -/

/-- The per-client rate-limit table. -/
abbrev RLMap : Type := List (String × List Nat)

/-- `RATE_LIMIT_WINDOW_MS` (line 26). -/
def RATE_LIMIT_WINDOW_MS : Nat := 60 * 1000

/-- `RATE_LIMIT_MAX` (line 27). -/
def RATE_LIMIT_MAX : Nat := 10

/-- `Map.get`. -/
def rlLookup : RLMap → String → Option (List Nat)
  | [], _ => none
  | (k, v) :: rest, ip => if k = ip then some v else rlLookup rest ip

/-- `Map.set` semantics: an existing key is updated in place (keeping its
position); a new key is appended. -/
def rlSet : RLMap → String → List Nat → RLMap
  | [], ip, ts => [(ip, ts)]
  | (k, v) :: rest, ip, ts =>
    if k = ip then (k, ts) :: rest else (k, v) :: rlSet rest ip ts

/-- `checkRateLimit` (lines 29-46).  Returns the boolean result and the
updated table; note that on the over-limit path the purged timestamp list
is still written back (the source mutates `entry.timestamps` before the
count check) but no new timestamp is recorded. -/
def checkRateLimit (now : Nat) (m : RLMap) (ip : String) : Bool × RLMap :=
  match rlLookup m ip with
  | none => (true, rlSet m ip [now])
  | some ts =>
    let purged := ts.filter (fun t => now - t < RATE_LIMIT_WINDOW_MS)
    if RATE_LIMIT_MAX ≤ purged.length then (false, rlSet m ip purged)
    else (true, rlSet m ip (purged ++ [now]))

/-- Iterate `checkRateLimit` for one client over a list of call times,
collecting the results. -/
def runCalls (m : RLMap) (ip : String) : List Nat → List Bool × RLMap
  | [] => ([], m)
  | t :: ts =>
    let r := checkRateLimit t m ip
    let rest := runCalls r.2 ip ts
    (r.1 :: rest.1, rest.2)

/-- Number of within-window timestamps recorded for a client at time
`now` (the quantity `checkRateLimit` compares against the maximum). -/
def windowCount (now : Nat) (m : RLMap) (ip : String) : Nat :=
  match rlLookup m ip with
  | none => 0
  | some ts => (ts.filter (fun t => now - t < RATE_LIMIT_WINDOW_MS)).length

/- ── Recipe Cache (lines 1-22) ──────────────────────────────────────
`recipeCache` maps a url to `{ data, timestamp }`; modelled as an
association list in insertion order (JavaScript `Map` iteration order),
so the first entry is the oldest-inserted one. -/

/-- The cache table; `α` is the stored payload type (the source stores the
result object, but the cache logic never inspects it). -/
abbrev CacheMap (α : Type) : Type := List (String × α × Nat)

/-- `CACHE_TTL_MS` (line 3). -/
def CACHE_TTL_MS : Nat := 60 * 60 * 1000

/-- `CACHE_MAX_ENTRIES` (line 4). -/
def CACHE_MAX_ENTRIES : Nat := 200

/-- `Map.get` for the cache. -/
def cacheLookup {α : Type} : CacheMap α → String → Option (α × Nat)
  | [], _ => none
  | (k, v) :: rest, url => if k = url then some v else cacheLookup rest url

/-- `Map.delete` for the cache (removes the key, preserving order). -/
def cacheDelete {α : Type} : CacheMap α → String → CacheMap α
  | [], _ => []
  | (k, v) :: rest, url =>
    if k = url then rest else (k, v) :: cacheDelete rest url

/-- `Map.set` for the cache: update in place or append. -/
def cacheSet {α : Type} : CacheMap α → String → α × Nat → CacheMap α
  | [], url, v => [(url, v)]
  | (k, w) :: rest, url, v =>
    if k = url then (k, v) :: rest else (k, w) :: cacheSet rest url v

/-- `getCached` (lines 6-14): absent key yields `none`; an entry strictly
older than the TTL is deleted and yields `none`; otherwise the stored data
is returned.  The (possibly changed) cache is returned alongside. -/
def getCached {α : Type} (now : Nat) (cache : CacheMap α) (url : String) : Option α × CacheMap α :=
  match cacheLookup cache url with
  | none => (none, cache)
  | some (d, ts) =>
    if CACHE_TTL_MS < now - ts then (none, cacheDelete cache url)
    else (some d, cache)

/-- `setCache` (lines 16-22): evict the oldest-inserted entry when at
capacity, then insert or overwrite the key with the current timestamp. -/
def setCache {α : Type} (now : Nat) (cache : CacheMap α) (url : String) (d : α) : CacheMap α :=
  let c1 := if CACHE_MAX_ENTRIES ≤ cache.length then cache.drop 1 else cache
  cacheSet c1 url (d, now)

/-- Insert a list of urls in order via `setCache`, all carrying payload
`d` at time 0. -/
def insertAll {α : Type} (d : α) (cache : CacheMap α) : List String → CacheMap α
  | [] => cache
  | k :: ks => insertAll d (setCache 0 cache k d) ks

/- ── JSON-LD block discovery (regex at lines 240 and 369) ─────────────
`/<script[^>]*type=["']application\/ld\+json["'][^>]*>([\s\S]*?)<\/script>/gi`
run in an `exec` loop, collecting the first capture group of each match.
The two handler variants contain the identical regex literal; the matcher
for one occurrence is shared, the exec loops are transcribed per variant. -/

/-- The double-quoted attribute needle `type="application/ld+json"`. -/
def ldNeedleD : List Char := ("type=\"application/ld+json\"").data

/-- The single-quoted attribute needle. -/
def ldNeedleS : List Char :=
  ("type=").data ++ [sqCh] ++ ("application/ld+json").data ++ [sqCh]

/-- Case-insensitive substring test (the needle is lowercase). -/
def containsCI (needle : List Char) : List Char → Bool
  | [] => (stripCI needle []).isSome
  | c :: cs => (stripCI needle (c :: cs)).isSome || containsCI needle cs

/-- Split the input at the first case-insensitive `</script>`: returns the
content before it and the remainder after it. -/
def splitAtCloseScript : List Char → Option (List Char × List Char)
  | [] => none
  | c :: cs =>
    match stripCI (("</script>").data) (c :: cs) with
    | some r => some ([], r)
    | none =>
      match splitAtCloseScript cs with
      | some (cap, rem) => some (c :: cap, rem)
      | none => none

/-- One match of the JSON-LD script regex starting at the current
position: `<script` (no word boundary in the pattern), an attribute region
up to the first `>` that must contain the `type` needle, then the lazily
captured body up to the first `</script>`. -/
def ldBlockMatch (s : List Char) : Option (List Char × List Char) :=
  match stripCI (("<script").data) s with
  | none => none
  | some r1 =>
    let inTag := r1.takeWhile (fun ch => ch != '>')
    if containsCI ldNeedleD inTag || containsCI ldNeedleS inTag then
      match r1.dropWhile (fun ch => ch != '>') with
      | '>' :: body => splitAtCloseScript body
      | _ => none
    else none

/-- The exec loop of handler variant 1 (lines 240-249): scan left to
right, collecting capture groups.  As in `runReplaceF` the fuel argument
together with the length guard keeps the definition kernel-reducible and
is never exhausted when the fuel equals the input length. -/
def extractBlocksAux : Nat → List Char → List String
  | 0, _ => []
  | _, [] => []
  | fuel + 1, c :: cs =>
    match ldBlockMatch (c :: cs) with
    | some (cap, rem) =>
      if rem.length ≤ cs.length then String.mk cap :: extractBlocksAux fuel rem
      else extractBlocksAux fuel cs
    | none => extractBlocksAux fuel cs

/-- JSON-LD block texts of variant 1. -/
def extractJsonLdBlocks (html : String) : List String :=
  extractBlocksAux html.data.length html.data

/-- The exec loop of handler variant 2 (lines 369-378); textually
identical to variant 1. -/
def extractBlocksAux2 : Nat → List Char → List String
  | 0, _ => []
  | _, [] => []
  | fuel + 1, c :: cs =>
    match ldBlockMatch (c :: cs) with
    | some (cap, rem) =>
      if rem.length ≤ cs.length then String.mk cap :: extractBlocksAux2 fuel rem
      else extractBlocksAux2 fuel cs
    | none => extractBlocksAux2 fuel cs

/-- JSON-LD block texts of variant 2. -/
def extractJsonLdBlocks2 (html : String) : List String :=
  extractBlocksAux2 html.data.length html.data

/-- Candidate list of variant 1: each block text is fed to `JSON.parse`
(a platform primitive, abstracted as the `parse` argument); blocks that
fail to parse are silently skipped. -/
def jsonLdCandidates (parse : String → Option Json) (html : String) : List Json :=
  (extractJsonLdBlocks html).filterMap parse

/-- Candidate list of variant 2. -/
def jsonLdCandidates2 (parse : String → Option Json) (html : String) : List Json :=
  (extractJsonLdBlocks2 html).filterMap parse

/- ── Recipe resolution (variant 1 lines 252-266, variant 2 lines
381-395; the two loops are textually identical) ───────────────────── -/

/-- `data.find(item => item['@type'] === 'Recipe')` in variant 1: the
property read throws on a `null` element, which aborts the handler. -/
def listFindRecipe : List Json → Except Unit (Option Json)
  | [] => Except.ok none
  | x :: xs =>
    match jget x ("@type") with
    | Except.error e => Except.error e
    | Except.ok t =>
      if strEqRecipe t then Except.ok (some x) else listFindRecipe xs

/-- The resolution loop of variant 1: per candidate, (a) the candidate's
own `@type`, (b) a `find` over an array candidate, (c) a `find` over a
truthy `@graph` array; the first hit wins and scanning stops. -/
def findRecipeLoop : List Json → Except Unit (Option Json)
  | [] => Except.ok none
  | d :: rest =>
    match jget d ("@type") with
    | Except.error e => Except.error e
    | Except.ok t =>
      if strEqRecipe t then Except.ok (some d)
      else
        match (if isArrB d then listFindRecipe (jelems d) else Except.ok none) with
        | Except.error e => Except.error e
        | Except.ok (some r) => Except.ok (some r)
        | Except.ok none =>
          match jget d ("@graph") with
          | Except.error e => Except.error e
          | Except.ok g =>
            match (if jtruthy g && isArrB g then listFindRecipe (jelems g) else Except.ok none) with
            | Except.error e => Except.error e
            | Except.ok (some r) => Except.ok (some r)
            | Except.ok none => findRecipeLoop rest

/-- `data.find(...)` in variant 2 (textually identical to variant 1). -/
def listFindRecipe2 : List Json → Except Unit (Option Json)
  | [] => Except.ok none
  | x :: xs =>
    match jget x ("@type") with
    | Except.error e => Except.error e
    | Except.ok t =>
      if strEqRecipe t then Except.ok (some x) else listFindRecipe2 xs

/-- The resolution loop of variant 2 (textually identical to variant 1). -/
def findRecipeLoop2 : List Json → Except Unit (Option Json)
  | [] => Except.ok none
  | d :: rest =>
    match jget d ("@type") with
    | Except.error e => Except.error e
    | Except.ok t =>
      if strEqRecipe t then Except.ok (some d)
      else
        match (if isArrB d then listFindRecipe2 (jelems d) else Except.ok none) with
        | Except.error e => Except.error e
        | Except.ok (some r) => Except.ok (some r)
        | Except.ok none =>
          match jget d ("@graph") with
          | Except.error e => Except.error e
          | Except.ok g =>
            match (if jtruthy g && isArrB g then listFindRecipe2 (jelems g) else Except.ok none) with
            | Except.error e => Except.error e
            | Except.ok (some r) => Except.ok (some r)
            | Except.ok none => findRecipeLoop2 rest

/- ── Spec-level resolution (for comparison with the loops) ──────────── -/

/-- The claim's per-element test: the element has `@type == "Recipe"`
(total — a `null` element simply fails the test). -/
def specHasRecipeType (d : Json) : Bool :=
  match d with
  | Json.obj fields =>
    match olookup fields ("@type") with
    | some t => strEqRecipe t
    | none => false
  | _ => false

/-- The claim's `@graph` accessor: an object's `@graph` field when it is
an array. -/
def specGraph (d : Json) : Option (List Json) :=
  match d with
  | Json.obj fields =>
    match olookup fields ("@graph") with
    | some (Json.arr g) => some g
    | _ => none
  | _ => none

/-- Modelled from the claim's words: scan candidates in document order;
per candidate check (a) the candidate itself, (b) the first Recipe element
of an array candidate, (c) the first Recipe element of a `@graph` array;
the first candidate satisfying any branch wins. -/
def resolveSpec : List Json → Option Json
  | [] => none
  | d :: rest =>
    if specHasRecipeType d then some d
    else
      match (match d with | Json.arr l => l.find? specHasRecipeType | _ => none) with
      | some r => some r
      | none =>
        match specGraph d with
        | some g =>
          match g.find? specHasRecipeType with
          | some r => some r
          | none => resolveSpec rest
        | none => resolveSpec rest

/- ── Field extraction (variant 1, lines 272-320) ───────────────────── -/

/-- `(recipe.recipeIngredient || []).map(i => typeof i === 'string' ? i.trim() : '')`
(lines 276-278): calling `.map` on a truthy non-array value throws. -/
def ingredientsOf (ingV : Json) : Except Unit (List String) :=
  match jor ingV (Json.arr []) with
  | Json.arr l =>
    Except.ok (l.map (fun i =>
      match i with
      | Json.str s => trimStr s
      | _ => ""))
  | _ => Except.error ()

/-- Per-step text of an instruction (lines 289-294): a string step is kept,
otherwise `step.text`, else `step.name`, else the empty string; reading a
property of a `null` step throws. -/
def stepTextOf (st : Json) : Except Unit Json :=
  match st with
  | Json.str s => Except.ok (Json.str s)
  | _ =>
    match jget st ("text") with
    | Except.error e => Except.error e
    | Except.ok t =>
      if jtruthy t then Except.ok t
      else
        match jget st ("name") with
        | Except.error e => Except.error e
        | Except.ok n => Except.ok (if jtruthy n then n else Json.str (""))

/-- Map `stepTextOf` across the instruction array, propagating a throw. -/
def stepsTexts : List Json → Except Unit (List Json)
  | [] => Except.ok []
  | st :: rest =>
    match stepTextOf st with
    | Except.error e => Except.error e
    | Except.ok t =>
      match stepsTexts rest with
      | Except.error e => Except.error e
      | Except.ok ts => Except.ok (t :: ts)

/-- Instruction parsing (lines 287-298): an array is mapped and filtered
by truthiness (`filter(Boolean)`), a plain string is wrapped, anything
else leaves the default empty list. -/
def instructionsOf (insV : Json) : Except Unit (List Json) :=
  if jtruthy insV then
    match insV with
    | Json.arr steps =>
      match stepsTexts steps with
      | Except.error e => Except.error e
      | Except.ok ts => Except.ok (ts.filter jtruthy)
    | Json.str s => Except.ok [Json.str s]
    | _ => Except.ok []
  else Except.ok []

/-- Image resolution (lines 301-305): a truthy string is used directly, an
array contributes its first element (or `undefined` when empty), otherwise
a truthy `url` property; anything else leaves `null`.  Total: the truthy
guard rules out `null`/`undefined` receivers. -/
def resolveImage (imgV : Json) : Json :=
  if jtruthy imgV then
    match imgV with
    | Json.str s => Json.str s
    | Json.arr l =>
      match l with
      | x :: _ => x
      | [] => Json.undef
    | _ =>
      let u := jgetTotal imgV ("url")
      if jtruthy u then u else Json.null
  else Json.null

/-- Image validation (lines 308-317): only a truthy string is validated —
it is discarded (set to `null`) unless it parses as a URL whose protocol
is `http:` or `https:`.  Every other value passes through untouched. -/
def validateImage (img : Json) : Json :=
  match img with
  | Json.str s =>
    if s ≠ "" then
      match parseURL s with
      | none => Json.null
      | some u =>
        if u.protocol ≠ "http:" ∧ u.protocol ≠ "https:" then Json.null
        else Json.str s
    else img
  | _ => img

/-- Field extraction (lines 272-317): property reads on the resolved
candidate, defaulting via `||`, with ingredient mapping, instruction
parsing and image resolution/validation.  A thrown `TypeError` anywhere
is propagated (the handler maps it to a 500 response). -/
def extractFields (recipe : Json) : Except Unit RecipeOut :=
  match jget recipe ("name") with
  | Except.error e => Except.error e
  | Except.ok nameV =>
  match jget recipe ("description") with
  | Except.error e => Except.error e
  | Except.ok descV =>
  match jget recipe ("recipeIngredient") with
  | Except.error e => Except.error e
  | Except.ok ingV =>
  match ingredientsOf ingV with
  | Except.error e => Except.error e
  | Except.ok ings =>
  match jget recipe ("recipeInstructions") with
  | Except.error e => Except.error e
  | Except.ok insV =>
  match instructionsOf insV with
  | Except.error e => Except.error e
  | Except.ok instrs =>
  match jget recipe ("recipeYield") with
  | Except.error e => Except.error e
  | Except.ok yV =>
  match jget recipe ("prepTime") with
  | Except.error e => Except.error e
  | Except.ok pV =>
  match jget recipe ("cookTime") with
  | Except.error e => Except.error e
  | Except.ok cV =>
  match jget recipe ("image") with
  | Except.error e => Except.error e
  | Except.ok imgV =>
    Except.ok
      { name := jor nameV (Json.str ("Untitled Recipe"))
        description := jor descV (Json.str (""))
        ingredients := ings
        instructions := instrs
        servings := jor yV Json.null
        prepTime := jor pV Json.null
        cookTime := jor cV Json.null
        image := validateImage (resolveImage imgV) }

/-- The post-resolution pipeline of the handler: field extraction, image
validation (inside `extractFields`), then `sanitizeRecipe` (line 320). -/
def extractPipeline (recipe : Json) : Except Unit RecipeOut :=
  match extractFields recipe with
  | Except.error e => Except.error e
  | Except.ok r => Except.ok (sanitizeRecipe r)

/- ── Pre-fetch handler stages (lines 174-215) ──────────────────────── -/

/-- The inbound request as the pre-fetch stages see it: the method, the
body's `url` field (absent or a string), and the already-derived client
identifier. -/
structure Req where
  method : String
  url : Option String
  clientIp : String

/-- Terminal outcome of the pre-fetch stages. -/
inductive PreOutcome where
  | options200 : PreOutcome
  | method405 : PreOutcome
  | rate429 : PreOutcome
  | missing400 : PreOutcome
  | unsafe400 : PreOutcome
  | domain400 : PreOutcome
  | hit (data : RecipeOut) : PreOutcome
  | proceedFetch : PreOutcome

/-- The handler's stages before the outbound fetch (lines 174-215):
OPTIONS short-circuit, method check, rate limit, url presence (a missing
or empty `url` is falsy), `isUrlSafe`, `isDomainAllowed`, then the cache
lookup.  Returns the outcome and the updated rate-limit and cache
tables. -/
def handlerPre (now : Nat) (req : Req) (rl : RLMap) (cache : CacheMap RecipeOut) :
    PreOutcome × RLMap × CacheMap RecipeOut :=
  if req.method = "OPTIONS" then (PreOutcome.options200, rl, cache)
  else if req.method ≠ "POST" then (PreOutcome.method405, rl, cache)
  else
    let rlRes := checkRateLimit now rl req.clientIp
    if !rlRes.1 then (PreOutcome.rate429, rlRes.2, cache)
    else
      match req.url with
      | none => (PreOutcome.missing400, rlRes.2, cache)
      | some u =>
        if u = "" then (PreOutcome.missing400, rlRes.2, cache)
        else if !isUrlSafe u then (PreOutcome.unsafe400, rlRes.2, cache)
        else if !isDomainAllowed u then (PreOutcome.domain400, rlRes.2, cache)
        else
          match getCached now cache u with
          | (some d, cache2) => (PreOutcome.hit d, rlRes.2, cache2)
          | (none, cache2) => (PreOutcome.proceedFetch, rlRes.2, cache2)

/- ── Claim-side predicates (used only to state the claims) ──────────── -/

/-- The claim's description of a blocked address: the hostname is a
literal dotted-quad IPv4 address (valid octets) lying in 127.0.0.0/8,
10.0.0.0/8, 172.16.0.0/12, 192.168.0.0/16, 169.254.0.0/16 or 0.0.0.0/8. -/
def inBlockedIpv4 (h : String) : Prop :=
  ∃ a b c d, ipv4Quad h = some (a, b, c, d) ∧
    a ≤ 255 ∧ b ≤ 255 ∧ c ≤ 255 ∧ d ≤ 255 ∧
    (a = 127 ∨ a = 10 ∨ (a = 172 ∧ 16 ≤ b ∧ b ≤ 31) ∨ (a = 192 ∧ b = 168) ∨ (a = 169 ∧ b = 254) ∨ a = 0)

/-- The claim's image invariant: `null`, or a string parsing as a URL with
scheme `http` or `https`. -/
def imageWellFormedHttp (j : Json) : Prop :=
  j = Json.null ∨
    ∃ s u, j = Json.str s ∧ parseURL s = some u ∧ (u.protocol = "http:" ∨ u.protocol = "https:")

/-- A value that is neither JSON `null` nor `undefined` (property reads on
it cannot throw). -/
def notNullish : Json → Bool
  | Json.null => false
  | Json.undef => false
  | _ => true

/-- A candidate on which the resolution loop performs no property read of
`null`: the candidate itself is not nullish, and neither are the elements
it scans (of an array candidate, or of an object candidate's `@graph`
array). -/
def cleanCand (d : Json) : Bool :=
  match d with
  | Json.null => false
  | Json.undef => false
  | Json.arr l => l.all notNullish
  | Json.obj fields =>
    match olookup fields ("@graph") with
    | some (Json.arr g) => g.all notNullish
    | _ => true
  | _ => true

/- ═══ Theorems settling the claims ═══════════════════════════════════ -/

/-- C2, counterexample: sanitizing `<script>alert(1)</script>Soup` does
not yield `Soup` — the first replace strips the two tags and leaves the
inner text, and the block sweep (which runs last) then finds no block. -/
theorem c2_counterexample :
    sanitizeText ("<script>alert(1)</script>Soup") ≠ ("Soup") := by
  decide

/-- C2 as amended: sanitizing the string `<script>alert(1)</script>Soup`
(also as a truthy recipe `name` field) yields exactly `alert(1)Soup`: the
opening and closing tags are removed but the script content survives,
because the tag-stripping replace runs before the block-sweep replace. -/
theorem c2_amended :
    sanitizeText ("<script>alert(1)</script>Soup") = ("alert(1)Soup") ∧
    (sanitizeRecipe
      { name := Json.str ("<script>alert(1)</script>Soup")
        description := Json.str ("")
        ingredients := []
        instructions := []
        servings := Json.null
        prepTime := Json.null
        cookTime := Json.null
        image := Json.null }).name = Json.str ("alert(1)Soup") := by
  exact ⟨rfl, rfl⟩

/-- C5: with `RATE_LIMIT_MAX = 10` and `RATE_LIMIT_WINDOW_MS = 60000`,
ten calls for one client at times `0..9` all return `true`; an eleventh
call at time `10` (inside the window) returns `false` and leaves the
table unchanged (no timestamp recorded); and any later call made once the
window has fully elapsed past every recorded timestamp returns `true`
again. -/
theorem checkRateLimit_window :
    (runCalls [] ("c") (List.range 10)).1 = List.replicate 10 true ∧
    (checkRateLimit 10 (runCalls [] ("c") (List.range 10)).2 ("c")).1 = false ∧
    (checkRateLimit 10 (runCalls [] ("c") (List.range 10)).2 ("c")).2
      = (runCalls [] ("c") (List.range 10)).2 ∧
    (∀ t, RATE_LIMIT_WINDOW_MS + 9 ≤ t →
      (checkRateLimit t (checkRateLimit 10 (runCalls [] ("c") (List.range 10)).2 ("c")).2 ("c")).1 = true) := by
  refine ⟨by decide, by decide, by decide, ?_⟩
  intro t ht
  have hs : (checkRateLimit 10 (runCalls [] ("c") (List.range 10)).2 ("c")).2
      = [(("c" : String), [0, 1, 2, 3, 4, 5, 6, 7, 8, 9])] := by decide
  rw [hs]
  have hfil : List.filter (fun x => decide (t - x < RATE_LIMIT_WINDOW_MS))
      [0, 1, 2, 3, 4, 5, 6, 7, 8, 9] = [] := by
    rw [List.filter_eq_nil_iff]
    intro a ha
    simp only [decide_eq_true_eq, not_lt]
    have haLe : a ≤ 9 := by
      fin_cases ha <;> omega
    unfold RATE_LIMIT_WINDOW_MS at ht ⊢
    omega
  simp [checkRateLimit, rlLookup, hfil, RATE_LIMIT_MAX]

/-- C5 witness: instantiating the general after-the-window clause at
`t = 70000`. -/
theorem checkRateLimit_window_witness :
    (checkRateLimit 70000 (checkRateLimit 10 (runCalls [] ("c") (List.range 10)).2 ("c")).2 ("c")).1 = true :=
  checkRateLimit_window.2.2.2 70000 (by decide)

/-- C8: `isDomainAllowed` lowercases the hostname, strips one leading
`www.`, and succeeds exactly when the result is a member of the fixed
allowlist; in particular the `www.`-ful and bare allrecipes.com forms are
accepted and a subdomain is not. -/
theorem isDomainAllowed_spec :
    (∀ s u, parseURL s = some u →
      (isDomainAllowed s = true ↔ stripWwwLower u.hostname ∈ ALLOWED_DOMAINS)) ∧
    isDomainAllowed ("https://www.allrecipes.com/x") = true ∧
    isDomainAllowed ("https://allrecipes.com/x") = true ∧
    isDomainAllowed ("https://evil.allrecipes.com/x") = false := by
  refine ⟨?_, by decide, by decide, by decide⟩
  intro s u hp
  simp [isDomainAllowed, hp]

/-- C8 witness: the characterization applied to the parsed form of
`https://www.allrecipes.com/x`. -/
theorem isDomainAllowed_spec_witness :
    isDomainAllowed ("https://www.allrecipes.com/x") = true ↔
      stripWwwLower ("www.allrecipes.com") ∈ ALLOWED_DOMAINS :=
  isDomainAllowed_spec.1 ("https://www.allrecipes.com/x")
    { protocol := "https:", username := "", password := "", hostname := "www.allrecipes.com" }
    (by rfl)

/-- A hostname satisfying the claim's dotted-quad range condition is
rejected by the source's first-two-octet check. -/
theorem privateIpQuad_of_blocked (h : String) (hb : inBlockedIpv4 h) :
    privateIpQuad h = true := by
  obtain ⟨a, b, c, d, hq, _, _, _, _, hr⟩ := hb
  simp [privateIpQuad, hq]
  exact hr

/-- C4: `isUrlSafe` returns `false` for every string that does not parse,
and for every parsed URL whose scheme is not `https`, or that carries
userinfo, or whose (lowercased) hostname is `localhost`, `0.0.0.0` or the
bracketed IPv6 loopback literal, or is a dotted-quad IPv4 address in the
private/loopback/link-local ranges of the claim.  (The source blocks the
cloud-metadata hostnames as well; the claim only asserts the `false`
direction, so that extra check is compatible.) -/
theorem isUrlSafe_rejects :
    (∀ s, parseURL s = none → isUrlSafe s = false) ∧
    (∀ s u, parseURL s = some u →
      (u.protocol ≠ "https:" ∨ u.username ≠ "" ∨ u.password ≠ "" ∨
       lowerStr u.hostname = "localhost" ∨ lowerStr u.hostname = "0.0.0.0" ∨
       lowerStr u.hostname = "[::1]" ∨ inBlockedIpv4 (lowerStr u.hostname)) →
      isUrlSafe s = false) := by
  constructor
  · intro s hp
    simp [isUrlSafe, hp]
  · intro s u hp hcond
    simp only [isUrlSafe, hp]
    repeat' split
    any_goals rfl
    exfalso
    rename_i hProt hCred hHost hIp _
    rcases hcond with h | h | h | h | h | h | h
    · exact hProt h
    · exact hCred (Or.inl h)
    · exact hCred (Or.inr h)
    · exact hHost (Or.inl h)
    · exact hHost (Or.inr (Or.inl h))
    · exact hHost (Or.inr (Or.inr h))
    · exact hIp (privateIpQuad_of_blocked _ h)

/-- C4 witness: a non-parsing string and a private dotted-quad URL. -/
theorem isUrlSafe_rejects_witness :
    isUrlSafe ("notaurl") = false ∧ isUrlSafe ("https://10.0.0.1/x") = false := by
  constructor
  · exact isUrlSafe_rejects.1 ("notaurl") (by rfl)
  · refine isUrlSafe_rejects.2 ("https://10.0.0.1/x")
      { protocol := "https:", username := "", password := "", hostname := "10.0.0.1" }
      (by rfl) ?_
    refine Or.inr (Or.inr (Or.inr (Or.inr (Or.inr (Or.inr ?_)))))
    exact ⟨10, 0, 0, 1, by rfl, by omega, by omega, by omega, by omega, Or.inr (Or.inl rfl)⟩

/-- A key absent from a cache is not found. -/
theorem cacheLookup_not_mem {α : Type} :
    ∀ (c : CacheMap α) (k : String), k ∉ c.map Prod.fst → cacheLookup c k = none := by
  intro c k h
  induction c with
  | nil => rfl
  | cons e rest ih =>
    obtain ⟨k0, v⟩ := e
    simp only [List.map_cons, List.mem_cons] at h
    push_neg at h
    simp only [cacheLookup]
    rw [if_neg (fun he => h.1 he.symm)]
    exact ih h.2

/-- Setting a fresh key appends it. -/
theorem cacheSet_fresh {α : Type} :
    ∀ (c : CacheMap α) (k : String) (v : α × Nat), k ∉ c.map Prod.fst →
      cacheSet c k v = c ++ [(k, v)] := by
  intro c k v h
  induction c with
  | nil => rfl
  | cons e rest ih =>
    obtain ⟨k0, w⟩ := e
    simp only [List.map_cons, List.mem_cons] at h
    push_neg at h
    simp only [cacheSet, List.cons_append]
    rw [if_neg (fun he => h.1 he.symm)]
    rw [ih h.2]

/-- Setting any key makes it found with the set value. -/
theorem cacheLookup_set {α : Type} :
    ∀ (c : CacheMap α) (k : String) (v : α × Nat),
      cacheLookup (cacheSet c k v) k = some v := by
  intro c k v
  induction c with
  | nil => simp [cacheSet, cacheLookup]
  | cons e rest ih =>
    obtain ⟨k0, w⟩ := e
    by_cases he : k0 = k
    · simp [cacheSet, cacheLookup, he]
    · simp only [cacheSet]
      rw [if_neg he]
      simp only [cacheLookup]
      rw [if_neg he]
      exact ih

/-- Inserting fresh distinct keys below capacity appends them in order. -/
theorem insertAll_fresh {α : Type} (d : α) :
    ∀ (ks : List String) (c : CacheMap α),
      c.length + ks.length ≤ CACHE_MAX_ENTRIES →
      (∀ k ∈ ks, k ∉ c.map Prod.fst) → ks.Nodup →
      insertAll d c ks = c ++ ks.map (fun k => (k, d, 0)) := by
  intro ks
  induction ks with
  | nil => intro c _ _ _; simp [insertAll]
  | cons k ks ih =>
    intro c hlen hfresh hnd
    have hlen2 : c.length + ks.length + 1 ≤ CACHE_MAX_ENTRIES := by
      simp only [List.length_cons] at hlen
      omega
    have hcap : ¬ CACHE_MAX_ENTRIES ≤ c.length := by omega
    have h1 : setCache 0 c k d = c ++ [(k, d, 0)] := by
      unfold setCache
      rw [if_neg hcap]
      exact cacheSet_fresh c k (d, 0) (hfresh k (List.mem_cons_self k ks))
    have hndk := List.nodup_cons.mp hnd
    rw [insertAll, h1, ih (c ++ [(k, d, 0)])]
    · simp
    · simp only [List.length_append, List.length_cons, List.length_nil]
      omega
    · intro k2 hk2
      simp only [List.map_append, List.mem_append, List.map_cons, List.map_nil,
        List.mem_singleton, not_or]
      exact ⟨hfresh k2 (List.mem_cons_of_mem k hk2), by
        intro he
        exact hndk.1 (he ▸ hk2)⟩
    · exact hndk.2

/-- Appending insertion lists composes. -/
theorem insertAll_append {α : Type} (d : α) :
    ∀ (t l2 : List String) (c : CacheMap α),
      insertAll d c (t ++ l2) = insertAll d (insertAll d c t) l2 := by
  intro t
  induction t with
  | nil => intro l2 c; rfl
  | cons k t ih => intro l2 c; simp only [List.cons_append, insertAll]; exact ih l2 _

/-- C6: with capacity `CACHE_MAX_ENTRIES = 200`, inserting 201 distinct
urls evicts the first-inserted one, which is then absent on lookup; and a
`getCached` performed strictly more than `CACHE_TTL_MS` after an entry's
insertion returns `none`. -/
theorem cache_evict_and_ttl :
    (∀ (α : Type) (d : α) (a z : String) (t : List String),
      (a :: (t ++ [z])).Nodup → t.length = 199 →
      (getCached 0 (insertAll d [] (a :: (t ++ [z]))) a).1 = none) ∧
    (∀ (α : Type) (st : CacheMap α) (url : String) (d : α) (tIns now : Nat),
      tIns + CACHE_TTL_MS < now →
      (getCached now (setCache tIns st url d) url).1 = none) := by
  constructor
  · intro α d a z t hnd hlen
    have hnd1 := List.nodup_cons.mp hnd
    have haNoMem : a ∉ t ∧ a ≠ z := by
      constructor
      · intro h; exact hnd1.1 (List.mem_append.mpr (Or.inl h))
      · intro h; exact hnd1.1 (List.mem_append.mpr (Or.inr (by simp [h])))
    have hndApp := List.nodup_append.mp hnd1.2
    have hzt : z ∉ t := by
      intro h
      exact (hndApp.2.2 h) (List.mem_singleton.mpr rfl)
    have hstep1 : insertAll d ([] : CacheMap α) (a :: (t ++ [z]))
        = insertAll d [(a, d, 0)] (t ++ [z]) := by
      rw [insertAll]
      rfl
    have hstep2 : insertAll d ([(a, d, 0)] : CacheMap α) t
        = (a, d, 0) :: t.map (fun k => (k, d, 0)) := by
      rw [insertAll_fresh d t [(a, d, 0)]]
      · rfl
      · simp only [List.length_singleton, hlen]
        decide
      · intro k hk
        simp only [List.map_cons, List.map_nil, List.mem_singleton]
        intro he
        exact haNoMem.1 (he ▸ hk)
      · exact hndApp.1
    have hmapfst : (t.map (fun k => ((k, d, 0) : String × α × Nat))).map Prod.fst = t := by
      rw [List.map_map]
      exact List.map_id t
    have hstep3 : setCache 0 ((a, d, 0) :: t.map (fun k => (k, d, 0))) z d
        = t.map (fun k => (k, d, 0)) ++ [(z, d, 0)] := by
      unfold setCache
      rw [if_pos (by simp [List.length_cons, List.length_map, hlen, CACHE_MAX_ENTRIES])]
      simp only [List.drop_one, List.tail_cons]
      exact cacheSet_fresh _ z (d, 0) (by rw [hmapfst]; exact hzt)
    have hlast : insertAll d ((a, d, 0) :: t.map (fun k => (k, d, 0))) [z]
        = t.map (fun k => (k, d, 0)) ++ [(z, d, 0)] := by
      rw [insertAll, hstep3, insertAll]
    have hlook : cacheLookup (t.map (fun k => ((k, d, 0) : String × α × Nat)) ++ [(z, d, 0)]) a
        = none := by
      apply cacheLookup_not_mem
      rw [List.map_append, hmapfst]
      simp only [List.map_cons, List.map_nil, List.mem_append, List.mem_singleton, not_or]
      exact haNoMem
    rw [hstep1, insertAll_append, hstep2, hlast]
    unfold getCached
    rw [hlook]
  · intro α st url d tIns now h
    have hlook : cacheLookup (setCache tIns st url d) url = some (d, tIns) := by
      unfold setCache
      exact cacheLookup_set _ url (d, tIns)
    unfold getCached
    rw [hlook]
    dsimp only
    rw [if_pos (show CACHE_TTL_MS < now - tIns by omega)]

set_option maxRecDepth 40000 in
/-- C6 witness: 201 concrete distinct urls (two two-character urls around
199 single-character ones), and a concrete TTL-expired read. -/
theorem cache_evict_and_ttl_witness :
    (getCached 0
      (insertAll 7 ([] : CacheMap Nat)
        (("k0") :: (((List.range 199).map (fun i => String.mk [Char.ofNat (48 + i)])) ++ [("k1")])))
      ("k0")).1 = none ∧
    (getCached 3600001 (setCache 0 ([] : CacheMap Nat) ("u") 7) ("u")).1 = none := by
  constructor
  · exact cache_evict_and_ttl.1 Nat 7 ("k0") ("k1")
      ((List.range 199).map (fun i => String.mk [Char.ofNat (48 + i)]))
      (by decide) (by decide)
  · exact cache_evict_and_ttl.2 Nat [] ("u") 7 0 3600001 (by decide)

/-- A second `jsanitize` is the identity whenever `sanitizeText` has
stabilized on the carried string. -/
theorem jsanitize_idem (j : Json)
    (hst : ∀ s, j = Json.str s → sanitizeText (sanitizeText s) = sanitizeText s) :
    jsanitize (jsanitize j) = jsanitize j := by
  cases j with
  | str s =>
    simp only [jsanitize, Json.str.injEq]
    exact hst s rfl
  | null => rfl
  | undef => rfl
  | bool b => rfl
  | num n => rfl
  | arr l => rfl
  | obj fields => rfl

/-- A second truthiness-guarded sanitization step is the identity whenever
`sanitizeText` has stabilized on the carried string. -/
theorem guarded_sanitize_idem (j : Json)
    (hst : ∀ s, j = Json.str s → sanitizeText (sanitizeText s) = sanitizeText s) :
    (if jtruthy (if jtruthy j then jsanitize j else j)
     then jsanitize (if jtruthy j then jsanitize j else j)
     else (if jtruthy j then jsanitize j else j))
      = (if jtruthy j then jsanitize j else j) := by
  by_cases ht : jtruthy j = true
  · rw [if_pos ht]
    by_cases ht2 : jtruthy (jsanitize j) = true
    · rw [if_pos ht2]
      exact jsanitize_idem j hst
    · rw [if_neg ht2]
  · rw [if_neg ht]
    rw [if_neg ht]

/-- C3 as amended: `sanitizeRecipe` is idempotent on every recipe whose
string fields `sanitizeText` has stabilized on (in particular on plain
text); in general it is not idempotent (see the counterexample). -/
theorem sanitizeRecipe_idem_of_stable (r : RecipeOut)
    (hn : ∀ s, r.name = Json.str s → sanitizeText (sanitizeText s) = sanitizeText s)
    (hd : ∀ s, r.description = Json.str s → sanitizeText (sanitizeText s) = sanitizeText s)
    (hi : ∀ x ∈ r.instructions, ∀ s, x = Json.str s → sanitizeText (sanitizeText s) = sanitizeText s)
    (hg : ∀ s ∈ r.ingredients, sanitizeText (sanitizeText s) = sanitizeText s) :
    sanitizeRecipe (sanitizeRecipe r) = sanitizeRecipe r := by
  unfold sanitizeRecipe
  simp only [RecipeOut.mk.injEq]
  refine ⟨guarded_sanitize_idem r.name hn, guarded_sanitize_idem r.description hd, ?_, ?_, trivial, trivial, trivial, trivial⟩
  · rw [List.map_map]
    apply List.map_congr_left
    intro s hs
    exact hg s hs
  · rw [List.map_map]
    apply List.map_congr_left
    intro x hx
    exact jsanitize_idem x (hi x hx)

/-- C3, counterexample: sanitize is not idempotent.  Removing the inline
event handler from `<scr onx="a"ipt>hello` splices the fragments into
`<script>hello`, which only a second sanitization pass removes. -/
theorem sanitizeRecipe_not_idempotent :
    sanitizeRecipe (sanitizeRecipe
      { name := Json.str ("<scr onx=\"a\"ipt>hello")
        description := Json.str ("")
        ingredients := []
        instructions := []
        servings := Json.null
        prepTime := Json.null
        cookTime := Json.null
        image := Json.null })
    ≠ sanitizeRecipe
      { name := Json.str ("<scr onx=\"a\"ipt>hello")
        description := Json.str ("")
        ingredients := []
        instructions := []
        servings := Json.null
        prepTime := Json.null
        cookTime := Json.null
        image := Json.null } := by
  intro h
  have h2 := congrArg RecipeOut.name h
  rw [show (sanitizeRecipe (sanitizeRecipe
      { name := Json.str ("<scr onx=\"a\"ipt>hello")
        description := Json.str ("")
        ingredients := []
        instructions := []
        servings := Json.null
        prepTime := Json.null
        cookTime := Json.null
        image := Json.null })).name = Json.str ("hello") from rfl] at h2
  rw [show (sanitizeRecipe
      { name := Json.str ("<scr onx=\"a\"ipt>hello")
        description := Json.str ("")
        ingredients := []
        instructions := []
        servings := Json.null
        prepTime := Json.null
        cookTime := Json.null
        image := Json.null }).name = Json.str ("<script>hello") from rfl] at h2
  injection h2 with h3
  exact absurd h3 (by decide)

/-- C3 witness: the stable-field idempotence applied to a plain-text
recipe. -/
theorem sanitizeRecipe_idem_witness :
    sanitizeRecipe (sanitizeRecipe
      { name := Json.str ("Tea")
        description := Json.str ("")
        ingredients := ["Water"]
        instructions := [Json.str ("Boil")]
        servings := Json.null
        prepTime := Json.null
        cookTime := Json.null
        image := Json.null })
    = sanitizeRecipe
      { name := Json.str ("Tea")
        description := Json.str ("")
        ingredients := ["Water"]
        instructions := [Json.str ("Boil")]
        servings := Json.null
        prepTime := Json.null
        cookTime := Json.null
        image := Json.null } := by
  apply sanitizeRecipe_idem_of_stable
  · intro s hs
    injection hs with h2
    subst h2
    decide
  · intro s hs
    injection hs with h2
    subst h2
    decide
  · intro x hx s hs
    simp only [List.mem_singleton] at hx
    subst hx
    injection hs with h2
    subst h2
    decide
  · intro s hs
    simp only [List.mem_singleton] at hs
    subst hs
    decide

/-- A clean candidate is itself not nullish. -/
theorem clean_notNullish (d : Json) (h : cleanCand d = true) : notNullish d = true := by
  cases d <;> simp_all [cleanCand, notNullish]

/-- On non-nullish values the property read does not throw. -/
theorem jget_ok (j : Json) (f : String) (h : notNullish j = true) :
    jget j f = Except.ok (jgetTotal j f) := by
  cases j <;> simp_all [notNullish, jget]

/-- The loop's `@type === 'Recipe'` test on a total read agrees with the
claim's per-element test. -/
theorem strEqRecipe_total (d : Json) :
    strEqRecipe (jgetTotal d ("@type")) = specHasRecipeType d := by
  cases d with
  | obj fields =>
    simp only [jgetTotal, specHasRecipeType]
    cases olookup fields ("@type") <;> rfl
  | null => rfl
  | undef => rfl
  | bool b => rfl
  | num n => rfl
  | str s => rfl
  | arr l => rfl

/-- On a list of non-nullish elements the loop's `find` agrees with
`List.find?` over the claim's test. -/
theorem listFindRecipe_clean :
    ∀ l : List Json, (∀ x ∈ l, notNullish x = true) →
      listFindRecipe l = Except.ok (l.find? specHasRecipeType) := by
  intro l h
  induction l with
  | nil => rfl
  | cons x xs ih =>
    have hx := h x (List.mem_cons_self x xs)
    have ih2 := ih (fun y hy => h y (List.mem_cons_of_mem x hy))
    simp only [listFindRecipe, jget_ok x _ hx, strEqRecipe_total]
    by_cases hs : specHasRecipeType x
    · simp [hs, List.find?_cons_of_pos _ hs]
    · simp only [Bool.not_eq_true] at hs
      simp [hs, List.find?_cons_of_neg, ih2]

/-- C7 as amended: on candidate lists whose inspected positions hold no
JSON `null` (the candidate itself, the elements of an array candidate,
and the elements of a `@graph` array), the resolution loop returns
exactly the claim's priority scan.  (On a `null` at an inspected position
the loop instead throws a `TypeError`; see the counterexample.) -/
theorem findRecipeLoop_spec :
    ∀ cands : List Json, (∀ d ∈ cands, cleanCand d = true) →
      findRecipeLoop cands = Except.ok (resolveSpec cands) := by
  intro cands h
  induction cands with
  | nil => rfl
  | cons d rest ih =>
    have hd := h d (List.mem_cons_self d rest)
    have hnn := clean_notNullish d hd
    have ih2 := ih (fun y hy => h y (List.mem_cons_of_mem d hy))
    simp only [findRecipeLoop, resolveSpec, jget_ok d _ hnn, strEqRecipe_total]
    by_cases hA : specHasRecipeType d
    · simp [hA]
    · simp only [Bool.not_eq_true] at hA
      simp only [hA, Bool.false_eq_true, if_false]
      cases d with
      | null => simp [notNullish] at hnn
      | undef => simp [notNullish] at hnn
      | bool b =>
        simp [isArrB, jgetTotal, jtruthy, specGraph, ih2]
      | num n =>
        simp [isArrB, jgetTotal, jtruthy, specGraph, ih2]
      | str s =>
        simp [isArrB, jgetTotal, jtruthy, specGraph, ih2]
      | arr l =>
        have hl : ∀ x ∈ l, notNullish x = true := by
          simp only [cleanCand, List.all_eq_true] at hd
          exact hd
        simp only [isArrB, if_true, jelems, listFindRecipe_clean l hl]
        cases hf : l.find? specHasRecipeType with
        | some r => simp
        | none => simp [jgetTotal, jtruthy, specGraph, ih2]
      | obj fields =>
        simp only [isArrB, Bool.false_eq_true, if_false]
        cases hg : olookup fields ("@graph") with
        | some v =>
          cases v with
          | arr g =>
            have hgl : ∀ x ∈ g, notNullish x = true := by
              simp only [cleanCand, hg, List.all_eq_true] at hd
              exact hd
            simp only [jgetTotal, hg, jtruthy, isArrB, Bool.and_self, if_true, jelems,
              listFindRecipe_clean g hgl, specGraph]
            cases hf : g.find? specHasRecipeType <;> simp [ih2]
          | null => simp [jgetTotal, hg, jtruthy, isArrB, specGraph, ih2]
          | undef => simp [jgetTotal, hg, jtruthy, isArrB, specGraph, ih2]
          | bool b2 => simp [jgetTotal, hg, jtruthy, isArrB, specGraph, ih2]
          | num n2 => simp [jgetTotal, hg, jtruthy, isArrB, specGraph, ih2]
          | str s2 => simp [jgetTotal, hg, jtruthy, isArrB, specGraph, ih2]
          | obj fields2 => simp [jgetTotal, hg, jtruthy, isArrB, specGraph, ih2]
        | none => simp [jgetTotal, hg, jtruthy, specGraph, ih2]

/-- C7, counterexample: on the candidate list `[null, {"@type":"Recipe"}]`
the claim's scan skips the `null` candidate (it satisfies no branch) and
resolves the Recipe object, but the loop throws a `TypeError` reading
`null['@type']` and the handler answers 500 instead of resolving. -/
theorem findRecipeLoop_null_counterexample :
    findRecipeLoop [Json.null, Json.obj [("@type", Json.str ("Recipe"))]] = Except.error () ∧
    resolveSpec [Json.null, Json.obj [("@type", Json.str ("Recipe"))]]
      = some (Json.obj [("@type", Json.str ("Recipe"))]) := by
  exact ⟨rfl, rfl⟩

/-- C7 witness: a clean candidate list whose only candidate is a `@graph`
wrapper holding a non-Recipe item followed by a Recipe item; the loop
agrees with the scan and both resolve the Recipe item. -/
theorem findRecipeLoop_spec_witness :
    findRecipeLoop
      [Json.obj [("x", Json.num 1)],
       Json.obj [("@graph", Json.arr
         [Json.obj [("@type", Json.str ("Thing"))],
          Json.obj [("@type", Json.str ("Recipe")), ("name", Json.str ("Tea"))]])]]
      = Except.ok (resolveSpec
        [Json.obj [("x", Json.num 1)],
         Json.obj [("@graph", Json.arr
           [Json.obj [("@type", Json.str ("Thing"))],
            Json.obj [("@type", Json.str ("Recipe")), ("name", Json.str ("Tea"))]])]]) ∧
    resolveSpec
      [Json.obj [("x", Json.num 1)],
       Json.obj [("@graph", Json.arr
         [Json.obj [("@type", Json.str ("Thing"))],
          Json.obj [("@type", Json.str ("Recipe")), ("name", Json.str ("Tea"))]])]]
      = some (Json.obj [("@type", Json.str ("Recipe")), ("name", Json.str ("Tea"))]) := by
  constructor
  · apply findRecipeLoop_spec
    intro d hd
    simp only [List.mem_cons, List.not_mem_nil, or_false] at hd
    rcases hd with h | h <;> subst h <;> rfl
  · rfl

/-- `Map.set` then `Map.get` on the same key. -/
theorem rlLookup_set : ∀ (m : RLMap) (ip : String) (ts : List Nat),
    rlLookup (rlSet m ip ts) ip = some ts := by
  intro m ip ts
  induction m with
  | nil => simp [rlSet, rlLookup]
  | cons e rest ih =>
    obtain ⟨k0, v⟩ := e
    by_cases he : k0 = ip
    · simp [rlSet, rlLookup, he]
    · simp only [rlSet]
      rw [if_neg he]
      simp only [rlLookup]
      rw [if_neg he]
      exact ih

/-- Purging is a projection: re-filtering a purged list changes nothing. -/
theorem filter_purge_idem (now : Nat) (ts : List Nat) :
    (ts.filter (fun t => now - t < RATE_LIMIT_WINDOW_MS)).filter
        (fun t => now - t < RATE_LIMIT_WINDOW_MS)
      = ts.filter (fun t => now - t < RATE_LIMIT_WINDOW_MS) := by
  induction ts with
  | nil => rfl
  | cons t ts ih =>
    by_cases h : now - t < RATE_LIMIT_WINDOW_MS
    · simp [List.filter, h, ih]
    · simp [List.filter, h, ih]

/-- An allowed `checkRateLimit` call records exactly one new
within-window timestamp for the client. -/
theorem windowCount_record (now : Nat) (m : RLMap) (ip : String)
    (h : (checkRateLimit now m ip).1 = true) :
    windowCount now (checkRateLimit now m ip).2 ip = windowCount now m ip + 1 := by
  unfold checkRateLimit at h ⊢
  cases hl : rlLookup m ip with
  | none =>
    simp only [hl, windowCount, rlLookup_set]
    simp [List.filter, Nat.sub_self, RATE_LIMIT_WINDOW_MS]
  | some ts =>
    simp only [hl] at h ⊢
    by_cases hc : RATE_LIMIT_MAX ≤ (ts.filter (fun t => now - t < RATE_LIMIT_WINDOW_MS)).length
    · simp [hc] at h
    · simp only [hc, if_false, windowCount, rlLookup_set, hl]
      rw [List.filter_append, filter_purge_idem]
      simp [List.filter, Nat.sub_self, RATE_LIMIT_WINDOW_MS]

/-- C9, counterexample: a GET request is rejected before the fetch stage
(405), yet `checkRateLimit` is never reached — the rate-limit table stays
empty and no slot is consumed, contradicting the claim that every
pre-fetch rejection consumed one. -/
theorem handlerPre_method405_no_slot :
    (handlerPre 0 { method := ("GET"), url := none, clientIp := ("c") } [] []).1
      = PreOutcome.method405 ∧
    (handlerPre 0 { method := ("GET"), url := none, clientIp := ("c") } [] []).2.1 = [] ∧
    windowCount 0 (handlerPre 0 { method := ("GET"), url := none, clientIp := ("c") } [] []).2.1 ("c") = 0 := by
  exact ⟨rfl, rfl, rfl⟩

/-- C9 as amended: a request rejected before the fetch stage for a
missing url, an unsafe url, or a disallowed domain HAS consumed one
rate-limit slot (the table is the one written by a successful
`checkRateLimit` call, whose within-window count grew by one); but
OPTIONS and method rejections return before the rate limiter and leave
the table untouched. -/
theorem handlerPre_slot_consumption :
    ∀ (now : Nat) (req : Req) (rl : RLMap) (cache : CacheMap RecipeOut),
      (((handlerPre now req rl cache).1 = PreOutcome.missing400 ∨
        (handlerPre now req rl cache).1 = PreOutcome.unsafe400 ∨
        (handlerPre now req rl cache).1 = PreOutcome.domain400) →
        (handlerPre now req rl cache).2.1 = (checkRateLimit now rl req.clientIp).2 ∧
        (checkRateLimit now rl req.clientIp).1 = true ∧
        windowCount now (handlerPre now req rl cache).2.1 req.clientIp
          = windowCount now rl req.clientIp + 1) ∧
      (((handlerPre now req rl cache).1 = PreOutcome.options200 ∨
        (handlerPre now req rl cache).1 = PreOutcome.method405) →
        (handlerPre now req rl cache).2.1 = rl) := by
  intro now req rl cache
  unfold handlerPre
  by_cases h1 : req.method = "OPTIONS"
  · simp [h1]
  · rw [if_neg h1]
    by_cases h2 : req.method ≠ "POST"
    · simp [h2]
    · rw [if_neg h2]
      by_cases h3 : (checkRateLimit now rl req.clientIp).1 = true
      · simp only [h3, Bool.not_true, Bool.false_eq_true, if_false]
        have hrec := windowCount_record now rl req.clientIp h3
        cases hu : req.url with
        | none =>
          dsimp only
          constructor
          · intro _
            refine ⟨?_, ?_, ?_⟩
            · first | rfl | trivial
            · first | exact h3 | trivial
            · exact hrec
          · intro hc
            rcases hc with hc | hc <;> simp at hc
        | some u =>
          dsimp only
          by_cases h4 : u = ""
          · rw [if_pos h4]
            constructor
            · intro _
              refine ⟨?_, ?_, ?_⟩
              · first | rfl | trivial
              · first | exact h3 | trivial
              · exact hrec
            · intro hc
              rcases hc with hc | hc <;> simp at hc
          · rw [if_neg h4]
            by_cases h5 : isUrlSafe u = true
            · simp only [h5, Bool.not_true, Bool.false_eq_true, if_false]
              by_cases h6 : isDomainAllowed u = true
              · simp only [h6, Bool.not_true, Bool.false_eq_true, if_false]
                cases hg : getCached now cache u with
                | mk o c2 =>
                  cases o with
                  | none =>
                    dsimp only
                    constructor
                    · intro hc
                      rcases hc with hc | hc | hc <;> simp at hc
                    · intro hc
                      rcases hc with hc | hc <;> simp at hc
                  | some dta =>
                    dsimp only
                    constructor
                    · intro hc
                      rcases hc with hc | hc | hc <;> simp at hc
                    · intro hc
                      rcases hc with hc | hc <;> simp at hc
              · simp only [Bool.not_eq_true] at h6
                simp only [h6, Bool.not_false, if_true]
                constructor
                · intro _
                  refine ⟨?_, ?_, ?_⟩
                  · first | rfl | trivial
                  · first | exact h3 | trivial
                  · exact hrec
                · intro hc
                  rcases hc with hc | hc <;> simp at hc
            · simp only [Bool.not_eq_true] at h5
              simp only [h5, Bool.not_false, if_true]
              constructor
              · intro _
                refine ⟨?_, ?_, ?_⟩
                · first | rfl | trivial
                · first | exact h3 | trivial
                · exact hrec
              · intro hc
                rcases hc with hc | hc <;> simp at hc
      · simp only [Bool.not_eq_true] at h3
        simp [h3]

/-- C9 witness: a POST with an unsafe (non-https) url is rejected at the
safety check and the client's within-window count has grown by one. -/
theorem handlerPre_slot_consumption_witness :
    (handlerPre 0 { method := ("POST"), url := some ("http://example.com/"), clientIp := ("c") } [] []).2.1
      = (checkRateLimit 0 [] ("c")).2 ∧
    (checkRateLimit 0 [] ("c")).1 = true ∧
    windowCount 0 (handlerPre 0 { method := ("POST"), url := some ("http://example.com/"), clientIp := ("c") } [] []).2.1 ("c")
      = windowCount 0 [] ("c") + 1 :=
  (handlerPre_slot_consumption 0
    { method := ("POST"), url := some ("http://example.com/"), clientIp := ("c") } [] []).1
    (Or.inr (Or.inl rfl))

/-- Whatever value enters image validation, a nonempty string surviving
it parses as a URL with scheme `http` or `https`. -/
theorem validateImage_str (j : Json) (s : String)
    (h : validateImage j = Json.str s) (hne : s ≠ "") :
    ∃ u, parseURL s = some u ∧ (u.protocol = "http:" ∨ u.protocol = "https:") := by
  cases j with
  | str s0 =>
    simp only [validateImage] at h
    by_cases h0 : s0 = ""
    · rw [if_neg (by simp [h0])] at h
      injection h with h2
      exact absurd (h2 ▸ h0) hne
    · rw [if_pos h0] at h
      cases hp : parseURL s0 with
      | none =>
        rw [hp] at h
        exact Json.noConfusion h
      | some u =>
        rw [hp] at h
        dsimp only at h
        by_cases hsch : u.protocol ≠ "http:" ∧ u.protocol ≠ "https:"
        · rw [if_pos hsch] at h
          exact Json.noConfusion h
        · rw [if_neg hsch] at h
          injection h with h2
          subst h2
          refine ⟨u, hp, ?_⟩
          by_cases hh : u.protocol = "http:"
          · exact Or.inl hh
          · exact Or.inr (by tauto)
  | null => exact Json.noConfusion h
  | undef => exact Json.noConfusion h
  | bool b => exact Json.noConfusion h
  | num n => exact Json.noConfusion h
  | arr l => exact Json.noConfusion h
  | obj fields => exact Json.noConfusion h

/-- A successful field extraction builds its image by running resolution
and validation on some value. -/
theorem extractFields_image (recipe : Json) (r0 : RecipeOut)
    (h : extractFields recipe = Except.ok r0) :
    ∃ v, r0.image = validateImage (resolveImage v) := by
  unfold extractFields at h
  repeat' split at h
  all_goals first
    | exact Except.noConfusion h
    | (cases h; exact ⟨_, rfl⟩)

/-- C1, counterexample: a source recipe with `image: [42]` flows through
resolution (first array element), skips validation (not a string), and is
returned with `image = 42` — neither `null` nor an `http`/`https` URL
string. -/
theorem extractPipeline_image_counterexample :
    Except.map RecipeOut.image (extractPipeline (Json.obj [(("image"), Json.arr [Json.num 42])]))
      = Except.ok (Json.num 42) ∧
    ¬ imageWellFormedHttp (Json.num 42) := by
  constructor
  · rfl
  · rintro (h | ⟨s, u, h, _, _⟩) <;> exact Json.noConfusion h

/-- C1 as amended: for every Recipe the pipeline returns, if the image
field is a nonempty string then it parses as a URL with scheme `http` or
`https` (non-string or empty image values pass through unvalidated), and
the result is the sanitized form of the extracted fields — `name`,
`description` and the `ingredients`/`instructions` elements have had
`sanitizeText` applied last. -/
theorem extractPipeline_image_sanitize (recipe : Json) (r : RecipeOut)
    (h : extractPipeline recipe = Except.ok r) :
    (∀ s, r.image = Json.str s → s ≠ "" →
      ∃ u, parseURL s = some u ∧ (u.protocol = "http:" ∨ u.protocol = "https:")) ∧
    (∃ pre, extractFields recipe = Except.ok pre ∧ r = sanitizeRecipe pre) := by
  unfold extractPipeline at h
  cases hf : extractFields recipe with
  | error e =>
    rw [hf] at h
    exact Except.noConfusion h
  | ok r0 =>
    rw [hf] at h
    dsimp only at h
    injection h with h2
    have hr : r = sanitizeRecipe r0 := h2.symm
    constructor
    · intro s hs hne
      obtain ⟨v, hv⟩ := extractFields_image recipe r0 hf
      have himg : r.image = r0.image := by
        rw [hr]
        rfl
      rw [himg, hv] at hs
      exact validateImage_str _ s hs hne
    · exact ⟨r0, rfl, hr⟩

/-- C1 witness: a concrete recipe with a valid https image; the pipeline
returns it and the amended invariant holds there. -/
theorem extractPipeline_image_sanitize_witness :
    (∀ s,
      (RecipeOut.mk (Json.str ("Tea")) (Json.str ("")) [] [] Json.null Json.null Json.null
        (Json.str ("https://img.example.com/a.png"))).image = Json.str s → s ≠ "" →
      ∃ u, parseURL s = some u ∧ (u.protocol = "http:" ∨ u.protocol = "https:")) ∧
    (∃ pre, extractFields (Json.obj [("name", Json.str ("Tea")), ("image", Json.str ("https://img.example.com/a.png"))])
        = Except.ok pre ∧
      (RecipeOut.mk (Json.str ("Tea")) (Json.str ("")) [] [] Json.null Json.null Json.null
        (Json.str ("https://img.example.com/a.png"))) = sanitizeRecipe pre) :=
  extractPipeline_image_sanitize
    (Json.obj [("name", Json.str ("Tea")), ("image", Json.str ("https://img.example.com/a.png"))])
    (RecipeOut.mk (Json.str ("Tea")) (Json.str ("")) [] [] Json.null Json.null Json.null
      (Json.str ("https://img.example.com/a.png")))
    (by rfl)

/-- The two variants' `find` helpers agree. -/
theorem listFindRecipe2_eq : ∀ l : List Json, listFindRecipe2 l = listFindRecipe l := by
  intro l
  induction l with
  | nil => rfl
  | cons x xs ih => simp only [listFindRecipe2, listFindRecipe, ih]

/-- The two variants' resolution loops agree. -/
theorem findRecipeLoop2_eq : ∀ l : List Json, findRecipeLoop2 l = findRecipeLoop l := by
  intro l
  induction l with
  | nil => rfl
  | cons d rest ih => simp only [findRecipeLoop2, findRecipeLoop, listFindRecipe2_eq, ih]

/-- The two variants' exec loops agree. -/
theorem extractBlocksAux2_eq :
    ∀ (fuel : Nat) (l : List Char), extractBlocksAux2 fuel l = extractBlocksAux fuel l := by
  intro fuel
  induction fuel with
  | zero => intro l; cases l <;> rfl
  | succ n ih =>
    intro l
    cases l with
    | nil => rfl
    | cons c cs =>
      simp only [extractBlocksAux2, extractBlocksAux]
      cases hb : ldBlockMatch (c :: cs) with
      | none => exact ih cs
      | some pr =>
        obtain ⟨cap, rem⟩ := pr
        by_cases hr : rem.length ≤ cs.length
        · simp [hr, ih]
        · simp [hr, ih]

/-- C10: for every JSON parser behaviour and every HTML input, the two
handler variants produce the same JSON-LD candidate list and their
resolution loops return the same Recipe candidate (or the same absence or
thrown error). -/
theorem jsonLd_pipeline_equiv :
    ∀ (parse : String → Option Json) (html : String),
      jsonLdCandidates parse html = jsonLdCandidates2 parse html ∧
      findRecipeLoop (jsonLdCandidates parse html)
        = findRecipeLoop2 (jsonLdCandidates2 parse html) := by
  intro parse html
  have hb : extractJsonLdBlocks html = extractJsonLdBlocks2 html := by
    unfold extractJsonLdBlocks extractJsonLdBlocks2
    exact (extractBlocksAux2_eq _ _).symm
  have hc : jsonLdCandidates parse html = jsonLdCandidates2 parse html := by
    unfold jsonLdCandidates jsonLdCandidates2
    rw [hb]
  exact ⟨hc, by rw [hc, findRecipeLoop2_eq]⟩
